import Mathlib

/-!
Shallow embedding of the `ratelimiter` Go package (joohnes/ratelimiter).

The authoritative source is `src/ratelimiter.go`: a token-bucket rate
limiter with a burst counter (`burst : uint`), a burst ceiling
(`maxBurst : uint`), a minimum spacing between uses (`burstInterval`,
enforced through the `expiry` timestamp), and a periodic refill driven by
a `time.Ticker` firing every `interval`.

Modelling decisions:
* Timestamps (`time.Time`) and durations (`time.Duration`, an int64 of
  nanoseconds) are embedded as `Int`; none of the claims involve
  arithmetic near the int64 bounds, so overflow is immaterial.
* `burst` and `maxBurst` are Go `uint`; they are embedded as `Nat`
  (`Use` only decrements under the guard `burst > 0`, and both
  constructors and `SetBurst` convert from a value checked `>= 1`, so no
  wraparound can occur in the source).
* The ticker is embedded by the timestamp of its next pending tick
  (`tickerNext`); `ticker.Reset(d)` at time `now` makes that `now + d`.
* The background refill goroutine's tick body and the sequential API
  calls are modelled as interleaved atomic steps (`Op` / `step`).
-/

namespace RL

/-- Error values of the package: `ErrBurst` ("buffor must be greater
than 0") and `ErrInterval` ("interval must be greater than 0"). -/
inductive Err where
  | errBurst
  | errInterval
deriving DecidableEq, Repr

/-- Options struct `RateLimiterOptions` from `src/ratelimiter.go`:
`BurstAmount : int`, `BurstInterval : time.Duration`,
`Interval : time.Duration`. -/
structure RateLimiterOptions where
  burstAmount : Int
  burstInterval : Int
  interval : Int
deriving DecidableEq, Repr

/-- The mutable state of a `RateLimiter` (minus the mutex, which only
serializes the steps, and the context, which is modelled as an explicit
cancellation flag where needed). -/
structure RateLimiter where
  burst : Nat
  maxBurst : Nat
  burstInterval : Int
  expiry : Int
  interval : Int
  tickerNext : Int
deriving DecidableEq, Repr

/-- Constructor `NewRateLimiterWithBurst(ctx, opts)` called at wall-clock time `t0`:
validates `BurstAmount >= 1` (else `ErrBurst`) then `Interval >= 1`
(else `ErrInterval`), and otherwise builds the limiter with
`burst = maxBurst = BurstAmount`, `expiry = time.Now()`, and a fresh
ticker with period `interval` (so its first tick is due at
`t0 + interval`). -/
def newRateLimiterWithBurst (opts : RateLimiterOptions) (t0 : Int) :
    Except Err RateLimiter :=
  if opts.burstAmount < 1 then .error .errBurst
  else if opts.interval < 1 then .error .errInterval
  else .ok
    { burst := opts.burstAmount.toNat
      maxBurst := opts.burstAmount.toNat
      burstInterval := opts.burstInterval
      expiry := t0
      interval := opts.interval
      tickerNext := t0 + opts.interval }

/-- Constructor `NewRateLimiter(ctx, interval)` called at time `t0`: delegates to
`NewRateLimiterWithBurst` with `BurstAmount = 1` and
`BurstInterval = Interval = interval`. -/
def newRateLimiter (interval : Int) (t0 : Int) : Except Err RateLimiter :=
  newRateLimiterWithBurst
    { burstAmount := 1, burstInterval := interval, interval := interval } t0

/-- Method `Use()` called at wall-clock time `now`: under the mutex, if
`burst > 0 && expiry.Before(now)` (Go `Time.Before` is strict `<`), set
`expiry = now + burstInterval`, decrement `burst`, reset the ticker
(next tick due at `now + interval`) and return `true`; otherwise return
`false` with no mutation. -/
def use (rl : RateLimiter) (now : Int) : Bool × RateLimiter :=
  if rl.burst > 0 ∧ rl.expiry < now then
    (true,
      { rl with
        expiry := now + rl.burstInterval
        burst := rl.burst - 1
        tickerNext := now + rl.interval })
  else
    (false, rl)

/-- One firing of the refill goroutine's ticker case: if
`burst < maxBurst`, increment `burst`; the ticker then waits another
full period. -/
def tick (rl : RateLimiter) : RateLimiter :=
  if rl.burst < rl.maxBurst then
    { rl with burst := rl.burst + 1, tickerNext := rl.tickerNext + rl.interval }
  else
    { rl with tickerNext := rl.tickerNext + rl.interval }

/-- Method `SetBurst(newMaxBurst)`: under the mutex, if `newMaxBurst < 1`
return `ErrBurst` with no mutation; otherwise set
`maxBurst = uint(newMaxBurst)` (the current `burst` is not touched). -/
def setBurst (rl : RateLimiter) (newMaxBurst : Int) :
    Option Err × RateLimiter :=
  if newMaxBurst < 1 then (some .errBurst, rl)
  else (none, { rl with maxBurst := newMaxBurst.toNat })

/-- Method `SetInterval(newInterval)` called at time `now`: under the mutex, if
`newInterval < 1` return `ErrInterval` with no mutation; otherwise set
`interval = newInterval` and reset the ticker (next tick at
`now + newInterval`). -/
def setInterval (rl : RateLimiter) (newInterval : Int) (now : Int) :
    Option Err × RateLimiter :=
  if newInterval < 1 then (some .errInterval, rl)
  else (none,
    { rl with interval := newInterval, tickerNext := now + newInterval })

/-- Method `ResetBurst()` from `src/unnamed/part_000` (the variant that has it;
absent from `src/ratelimiter.go`): under the mutex, set
`burst = maxBurst`. -/
def resetBurst (rl : RateLimiter) : RateLimiter :=
  { rl with burst := rl.maxBurst }

/-- One observable step of the limiter: an API call or a refill tick. -/
inductive Op where
  | use (now : Int)
  | tick
  | setBurst (m : Int)
  | setInterval (d : Int) (now : Int)
  | resetBurst
deriving DecidableEq, Repr

/-- Apply one step to the state (return values discarded). -/
def step (rl : RateLimiter) : Op → RateLimiter
  | .use now => (use rl now).2
  | .tick => tick rl
  | .setBurst m => (setBurst rl m).2
  | .setInterval d now => (setInterval rl d now).2
  | .resetBurst => resetBurst rl

/-- Run a sequence of steps. -/
def run (rl : RateLimiter) (ops : List Op) : RateLimiter :=
  ops.foldl step rl

/-- State after `k` consecutive `Use` calls, the `i`-th at time `ts i`. -/
def useRun (rl : RateLimiter) (ts : Nat → Int) : Nat → RateLimiter
  | 0 => rl
  | k + 1 => (use (useRun rl ts k) (ts k)).2

/-- Result of the `(k+1)`-th consecutive `Use` call (index `k`), the
`i`-th call being made at time `ts i`. -/
def useResultAt (rl : RateLimiter) (ts : Nat → Int) (k : Nat) : Bool :=
  (use (useRun rl ts k) (ts k)).1

/-- Results of the `Use` calls inside a step sequence, in order. -/
def useResults (rl : RateLimiter) : List Op → List Bool
  | [] => []
  | Op.use now :: ops => (use rl now).1 :: useResults (step rl (Op.use now)) ops
  | op :: ops => useResults (step rl op) ops

/-- Check that every `Use` call in the step sequence happens strictly
before time `c`. -/
def allUsesBefore (c : Int) : List Op → Bool
  | [] => true
  | Op.use now :: ops => decide (now < c) && allUsesBefore c ops
  | _ :: ops => allUsesBefore c ops

/-- Check that no accepted `SetBurst` in the trace lowers the ceiling
below the permit count current at the moment of the call. -/
def noUnsafeLowering (rl : RateLimiter) : List Op → Bool
  | [] => true
  | op :: ops =>
    (match op with
     | Op.setBurst m => decide (m < 1 ∨ rl.burst ≤ m.toNat)
     | _ => true) && noUnsafeLowering (step rl op) ops

/-- Body of the goroutine spawned by `Wait(ctx)`: each loop iteration
runs `select`, whose `ctx.Done()` case is ready as soon as the context
is cancelled, making the goroutine return without ever sending on the
`allow` channel; otherwise the `default` branch calls `Use()` (here at
the next time in `times`), sends on `allow` and returns on success, and
loops on failure. The value is `some s` when a send on `allow` happened
leaving the limiter in state `s`, and `none` when the goroutine exited
(or the modelled prefix of the infinite loop ran out) without sending.
The flag `cancelled` models an already-cancelled context. -/
def waitAttempts (cancelled : Bool) (rl : RateLimiter) :
    List Int → Option RateLimiter
  | [] => none
  | t :: ts =>
    if cancelled then none
    else
      match use rl t with
      | (true, rl') => some rl'
      | (false, rl') => waitAttempts cancelled rl' ts

/-- Whether `Wait(ctx)` returns to its caller: `Wait` blocks on the
channel receive `<-allow`, which completes exactly when the goroutine
sends (the `defer close(allow)` in `Wait` runs only after that receive,
so it cannot unblock the receive itself). -/
def waitReturns (cancelled : Bool) (rl : RateLimiter)
    (times : List Int) : Bool :=
  (waitAttempts cancelled rl times).isSome

/-- Helper: `Use` grants exactly when a permit is available and `now`
is strictly past `expiry`. -/
theorem use_fst_iff (rl : RateLimiter) (now : Int) :
    (use rl now).1 = true ↔ (0 < rl.burst ∧ rl.expiry < now) := by
  unfold use
  split <;> simp_all

/-- Helper: a denied `Use` leaves the state unchanged. -/
theorem use_snd_of_denied (rl : RateLimiter) (now : Int)
    (h : ¬(0 < rl.burst ∧ rl.expiry < now)) : use rl now = (false, rl) := by
  unfold use
  exact if_neg h

/-- C6: whenever `burst = 0` or the call time is before `expiry`
(the claim's rendering of a failed admission condition), `Use` returns
`false` and leaves every component of the state unchanged. -/
theorem use_denied_no_mutation (rl : RateLimiter) (now : Int)
    (h : rl.burst = 0 ∨ now < rl.expiry) :
    use rl now = (false, rl) := by
  apply use_snd_of_denied
  rintro ⟨h1, h2⟩
  rcases h with h | h <;> omega

/-- Witness for C6 at a concrete state with `burst = 0`. -/
theorem use_denied_no_mutation_witness :
    use ⟨0, 1, 0, 0, 1, 1⟩ 5 = (false, ⟨0, 1, 0, 0, 1, 1⟩) :=
  use_denied_no_mutation ⟨0, 1, 0, 0, 1, 1⟩ 5 (Or.inl rfl)

/-- Counterexample to C5 as stated: at a state with a permit available
and the call time exactly equal to `nextEligibleTime` ("at" it), the
claim says `TryAcquire` succeeds, but `Use` checks
`expiry.Before(now)`, which is strict, and returns `false`. -/
theorem use_at_exact_eligible_time_denied :
    0 < (⟨1, 1, 0, 5, 1, 6⟩ : RateLimiter).burst ∧
    (⟨1, 1, 0, 5, 1, 6⟩ : RateLimiter).expiry ≤ 5 ∧
    (use ⟨1, 1, 0, 5, 1, 6⟩ 5).1 = false := by decide

/-- C5 (amended: the call time must be strictly past
`nextEligibleTime`): when `0 < burst` and `expiry < now`, `Use` returns
`true`, decrements `burst` by one, sets `expiry = now + burstInterval`,
reschedules the ticker to `now + interval`, and changes nothing else. -/
theorem use_granted_effects (rl : RateLimiter) (now : Int)
    (h1 : 0 < rl.burst) (h2 : rl.expiry < now) :
    (use rl now).1 = true ∧
    (use rl now).2.burst + 1 = rl.burst ∧
    (use rl now).2.expiry = now + rl.burstInterval ∧
    (use rl now).2.tickerNext = now + rl.interval ∧
    (use rl now).2.maxBurst = rl.maxBurst ∧
    (use rl now).2.interval = rl.interval ∧
    (use rl now).2.burstInterval = rl.burstInterval := by
  unfold use
  rw [if_pos ⟨h1, h2⟩]
  refine ⟨rfl, ?_, rfl, rfl, rfl, rfl, rfl⟩
  simp
  omega

/-- Witness for C5's amended theorem at a concrete state. -/
theorem use_granted_effects_witness :
    (use ⟨1, 1, 2, 0, 3, 1⟩ 5).1 = true ∧
    (use ⟨1, 1, 2, 0, 3, 1⟩ 5).2.burst + 1 = 1 ∧
    (use ⟨1, 1, 2, 0, 3, 1⟩ 5).2.expiry = 5 + 2 ∧
    (use ⟨1, 1, 2, 0, 3, 1⟩ 5).2.tickerNext = 5 + 3 ∧
    (use ⟨1, 1, 2, 0, 3, 1⟩ 5).2.maxBurst = 1 ∧
    (use ⟨1, 1, 2, 0, 3, 1⟩ 5).2.interval = 3 ∧
    (use ⟨1, 1, 2, 0, 3, 1⟩ 5).2.burstInterval = 2 :=
  use_granted_effects ⟨1, 1, 2, 0, 3, 1⟩ 5 (by decide) (by decide)

/-- Counterexample to C4 as stated: with `minSpacing = 5` and two
permits, a `Use` succeeds at `t = 0`, and a second `Use` exactly
`minSpacing` later (`t' - t = 5 ≥ S`, where the claim says it succeeds)
is denied, because the code requires strictly more than `S` to elapse. -/
theorem second_use_at_exact_spacing_denied :
    (use ⟨2, 2, 5, -1, 1, 0⟩ 0).1 = true ∧
    (use (use ⟨2, 2, 5, -1, 1, 0⟩ 0).2 5).1 = false := by decide

/-- C4 (amended: the second call succeeds exactly when the gap strictly
exceeds `S` and is denied when the gap is at most `S`): with
`minSpacing = S > 0` and at least two permits, after a granted `Use` at
time `t`, a second `Use` at `t'` is granted iff `t' - t > S` and denied
iff `t' - t ≤ S`. -/
theorem second_use_spacing (rl rl' : RateLimiter) (t t' : Int)
    (hS : 0 < rl.burstInterval) (hb : 2 ≤ rl.burst)
    (h : use rl t = (true, rl')) :
    ((use rl' t').1 = true ↔ t + rl.burstInterval < t') ∧
    ((use rl' t').1 = false ↔ t' ≤ t + rl.burstInterval) := by
  unfold use at h
  split at h
  case isFalse hc => simp at h
  case isTrue hc =>
    injection h with h1 h2
    subst h2
    constructor
    · rw [use_fst_iff]
      dsimp only
      omega
    · rw [← Bool.not_eq_true, use_fst_iff]
      dsimp only
      omega

/-- Witness for C4's amended theorem: `S = 5`, first grant at `t = 0`,
second attempt at `t' = 6 > t + S`. -/
theorem second_use_spacing_witness :
    ((use ⟨1, 2, 5, 5, 1, 1⟩ 6).1 = true ↔ (0 : Int) + 5 < 6) ∧
    ((use ⟨1, 2, 5, 5, 1, 1⟩ 6).1 = false ↔ (6 : Int) ≤ 0 + 5) :=
  second_use_spacing ⟨2, 2, 5, -1, 1, 0⟩ ⟨1, 2, 5, 5, 1, 1⟩ 0 6
    (by decide) (by decide) (by decide)

/-- C8: raising the ceiling with `SetBurst` to any `m` above the current
`maxBurst` succeeds (no error), sets `maxBurst = m`, and leaves `burst`
and every other component unchanged — in particular `burst` is never
reset downward. -/
theorem setBurst_raise_frame (rl : RateLimiter) (m : Int)
    (h : (rl.maxBurst : Int) < m) :
    (setBurst rl m).1 = none ∧
    ((setBurst rl m).2.maxBurst : Int) = m ∧
    (setBurst rl m).2.burst = rl.burst ∧
    (setBurst rl m).2.interval = rl.interval ∧
    (setBurst rl m).2.burstInterval = rl.burstInterval ∧
    (setBurst rl m).2.expiry = rl.expiry ∧
    (setBurst rl m).2.tickerNext = rl.tickerNext := by
  unfold setBurst
  rw [if_neg (by omega)]
  refine ⟨rfl, ?_, rfl, rfl, rfl, rfl, rfl⟩
  dsimp only
  omega

/-- Witness for C8 at a concrete limiter, raising the ceiling 1 → 3. -/
theorem setBurst_raise_frame_witness :
    (setBurst ⟨1, 1, 0, 0, 1, 1⟩ 3).1 = none ∧
    ((setBurst ⟨1, 1, 0, 0, 1, 1⟩ 3).2.maxBurst : Int) = 3 ∧
    (setBurst ⟨1, 1, 0, 0, 1, 1⟩ 3).2.burst = 1 ∧
    (setBurst ⟨1, 1, 0, 0, 1, 1⟩ 3).2.interval = 1 ∧
    (setBurst ⟨1, 1, 0, 0, 1, 1⟩ 3).2.burstInterval = 0 ∧
    (setBurst ⟨1, 1, 0, 0, 1, 1⟩ 3).2.expiry = 0 ∧
    (setBurst ⟨1, 1, 0, 0, 1, 1⟩ 3).2.tickerNext = 1 :=
  setBurst_raise_frame ⟨1, 1, 0, 0, 1, 1⟩ 3 (by decide)

/-- C10: `ResetBurst` refills the pool to capacity in one step
(`burst := maxBurst`) and leaves `maxBurst`, `interval`,
`burstInterval`, `expiry` and the ticker phase unchanged. -/
theorem resetBurst_effects (rl : RateLimiter) :
    (resetBurst rl).burst = rl.maxBurst ∧
    (resetBurst rl).maxBurst = rl.maxBurst ∧
    (resetBurst rl).interval = rl.interval ∧
    (resetBurst rl).burstInterval = rl.burstInterval ∧
    (resetBurst rl).expiry = rl.expiry ∧
    (resetBurst rl).tickerNext = rl.tickerNext :=
  ⟨rfl, rfl, rfl, rfl, rfl, rfl⟩

/-- Counterexample to C7 as stated: on options with both `BurstAmount`
and `Interval` invalid, `Interval < 1` holds yet construction fails
with `ErrBurst`, not `ErrInterval` (the burst check runs first), so
"fails with `InvalidIntervalConfig` exactly when `refillInterval < 1`"
is false. -/
theorem interval_error_not_exact :
    (⟨0, 0, 0⟩ : RateLimiterOptions).interval < 1 ∧
    newRateLimiterWithBurst ⟨0, 0, 0⟩ 0 = .error .errBurst ∧
    Err.errBurst ≠ Err.errInterval :=
  ⟨by decide, rfl, by decide⟩

/-- C7 (amended: with both parameters invalid the burst check wins, so
`ErrInterval` is returned exactly when the interval is invalid AND the
burst amount is valid): construction fails with `ErrBurst` iff
`BurstAmount < 1`, fails with `ErrInterval` iff `BurstAmount ≥ 1` and
`Interval < 1`, and succeeds otherwise; the setters return `ErrBurst`
iff their argument is `< 1` (resp. `ErrInterval`), and these are the
only failure kinds. -/
theorem validation_taxonomy (opts : RateLimiterOptions) (t0 : Int)
    (rl : RateLimiter) (m d now : Int) :
    (newRateLimiterWithBurst opts t0 = .error .errBurst ↔
      opts.burstAmount < 1) ∧
    (newRateLimiterWithBurst opts t0 = .error .errInterval ↔
      (1 ≤ opts.burstAmount ∧ opts.interval < 1)) ∧
    ((∃ r, newRateLimiterWithBurst opts t0 = .ok r) ↔
      (1 ≤ opts.burstAmount ∧ 1 ≤ opts.interval)) ∧
    ((setBurst rl m).1 = some .errBurst ↔ m < 1) ∧
    ((setBurst rl m).1 = none ↔ 1 ≤ m) ∧
    ((setInterval rl d now).1 = some .errInterval ↔ d < 1) ∧
    ((setInterval rl d now).1 = none ↔ 1 ≤ d) := by
  unfold newRateLimiterWithBurst setBurst setInterval
  split_ifs <;> simp_all

/-- C2 evaluated on the code: with an already-cancelled context, the
goroutine spawned by `Wait` takes the ready `ctx.Done()` case of its
`select` and returns without sending on `allow`, so the receive
`<-allow` in `Wait` never completes — `Wait` never returns to its
caller (it blocks forever), for every limiter state and every prefix of
the retry loop. (No permit is consumed: `Use` is never reached.) -/
theorem wait_cancelled_never_returns (rl : RateLimiter)
    (times : List Int) :
    waitReturns true rl times = false := by
  cases times <;> rfl

/-- Helper: no step of the limiter ever lowers `expiry`, except a
granted `Use`; so if every `Use` in a trace happens strictly before
`c ≤ expiry`, all those `Use` calls are denied. -/
theorem useResults_all_denied (ops : List Op) (c : Int) :
    ∀ s : RateLimiter, allUsesBefore c ops = true → c ≤ s.expiry →
      ∀ b ∈ useResults s ops, b = false := by
  induction ops with
  | nil =>
    intro s _ _ b hb
    simp [useResults] at hb
  | cons op ops ih =>
    intro s hops h b hb
    cases op with
    | use now =>
      rw [allUsesBefore, Bool.and_eq_true, decide_eq_true_eq] at hops
      obtain ⟨hnow, hops⟩ := hops
      have hdenied : use s now = (false, s) :=
        use_snd_of_denied s now (by rintro ⟨-, h2⟩; omega)
      rw [useResults] at hb
      rw [show step s (Op.use now) = s from by rw [step, hdenied]] at hb
      rcases List.mem_cons.mp hb with hb | hb
      · rw [hb, hdenied]
      · exact ih s hops h b hb
    | tick =>
      have hops' : allUsesBefore c ops = true := hops
      have hb' : b ∈ useResults (tick s) ops := hb
      refine ih (tick s) hops' ?_ b hb'
      rw [tick]
      split <;> exact h
    | setBurst m =>
      have hops' : allUsesBefore c ops = true := hops
      have hb' : b ∈ useResults (setBurst s m).2 ops := hb
      refine ih _ hops' ?_ b hb'
      rw [setBurst]
      split <;> exact h
    | setInterval d now =>
      have hops' : allUsesBefore c ops = true := hops
      have hb' : b ∈ useResults (setInterval s d now).2 ops := hb
      refine ih _ hops' ?_ b hb'
      rw [setInterval]
      split <;> exact h
    | resetBurst =>
      have hops' : allUsesBefore c ops = true := hops
      have hb' : b ∈ useResults (resetBurst s) ops := hb
      exact ih (resetBurst s) hops' h b hb'

/-- Helper: no operation ever writes `burstInterval` (the source has no
setter for it), so a single step preserves it. -/
theorem step_burstInterval (s : RateLimiter) (op : Op) :
    (step s op).burstInterval = s.burstInterval := by
  cases op with
  | use now => rw [step, use]; split <;> rfl
  | tick => rw [step, tick]; split <;> rfl
  | setBurst m => rw [step, setBurst]; split <;> rfl
  | setInterval dd now => rw [step, setInterval]; split <;> rfl
  | resetBurst => rfl

/-- Helper: `burstInterval` is preserved by whole runs. -/
theorem run_burstInterval (ops : List Op) :
    ∀ s : RateLimiter, (run s ops).burstInterval = s.burstInterval := by
  induction ops with
  | nil => intro s; rfl
  | cons op ops ih =>
    intro s
    rw [run, List.foldl_cons]
    rw [show List.foldl step (step s op) ops = run (step s op) ops from rfl]
    rw [ih (step s op), step_burstInterval]

/-- Helper: a granted `Use` at time `t` leaves
`expiry = t + burstInterval`. -/
theorem use_snd_expiry_of_granted (s : RateLimiter) (t : Int)
    (h : (use s t).1 = true) :
    (use s t).2.expiry = t + s.burstInterval := by
  by_cases hc : 0 < s.burst ∧ s.expiry < t
  · rw [use, if_pos hc]
  · rw [use_snd_of_denied s t hc] at h
    simp at h

/-- C9: the single-argument constructor `NewRateLimiter(ctx, d)` sets
`burstInterval` (the minimum spacing) to `d`, not zero; consequently,
after any granted `Use` over the limiter's lifetime — the grant may
happen at time `t` after an arbitrary prefix `pre` of `Use` calls,
refill ticks and administrative calls — every further `Use` within `d`
of it (strictly before `t + d`) is denied, whatever refill ticks or
administrative calls happen in between: the limiter never grants two
acquisitions less than `d` apart. -/
theorem default_spacing_enforced (d t0 t : Int) (hd : 1 ≤ d)
    (rl : RateLimiter) (hnew : newRateLimiter d t0 = .ok rl)
    (pre : List Op) (hgrant : (use (run rl pre) t).1 = true)
    (post : List Op) (hops : allUsesBefore (t + d) post = true) :
    rl.burstInterval = d ∧
    (useResults (use (run rl pre) t).2 post).all (fun b => !b) = true := by
  unfold newRateLimiter newRateLimiterWithBurst at hnew
  rw [if_neg (show ¬((1 : Int) < 1) by decide),
    if_neg (show ¬(d < 1) by omega)] at hnew
  injection hnew with hnew
  subst hnew
  refine ⟨rfl, ?_⟩
  rw [List.all_eq_true]
  intro b hb
  have hexp := use_snd_expiry_of_granted (run _ pre) t hgrant
  rw [run_burstInterval] at hexp
  have hden := useResults_all_denied post (t + d) _ hops
    (by rw [hexp]) b hb
  rw [hden]
  rfl

/-- Witness for C9: `d = 1`, construction at `t0 = -1`, a first grant
and a tick as the prefix, a second grant at `t = 2`, then a tick and a
retry at time `2 < t + d` which is denied. -/
theorem default_spacing_enforced_witness :
    (⟨1, 1, 1, -1, 1, 0⟩ : RateLimiter).burstInterval = 1 ∧
    (useResults (use (run ⟨1, 1, 1, -1, 1, 0⟩ [Op.use 0, Op.tick]) 2).2
      [Op.tick, Op.use 2]).all (fun b => !b) = true :=
  default_spacing_enforced 1 (-1) 2 (by decide) ⟨1, 1, 1, -1, 1, 0⟩ rfl
    [Op.use 0, Op.tick] (by decide) [Op.tick, Op.use 2] (by decide)

/-- Counterexample to C1 as stated: from a freshly constructed limiter
with two permits, the single call `SetBurst(1)` (a valid argument)
yields a reachable state with `maxBurst = 1 < burst = 2`, because
`SetBurst` never clamps `burst` down — so `availablePermits ≤
maxPermits` does not hold at all observable times. -/
theorem setBurst_breaks_invariant :
    newRateLimiterWithBurst ⟨2, 0, 1⟩ 0 = .ok ⟨2, 2, 0, 0, 1, 1⟩ ∧
    (run ⟨2, 2, 0, 0, 1, 1⟩ [Op.setBurst 1]).maxBurst <
      (run ⟨2, 2, 0, 0, 1, 1⟩ [Op.setBurst 1]).burst :=
  ⟨rfl, by decide⟩

/-- Helper: `burst ≤ maxBurst` is preserved by every step of a trace in
which no accepted `SetBurst` lowers the ceiling below the then-current
permit count. -/
theorem run_le_invariant (ops : List Op) :
    ∀ rl : RateLimiter, rl.burst ≤ rl.maxBurst →
      noUnsafeLowering rl ops = true →
      (run rl ops).burst ≤ (run rl ops).maxBurst := by
  induction ops with
  | nil => intro rl hinv _; exact hinv
  | cons op ops ih =>
    intro rl hinv hops
    rw [run, List.foldl_cons]
    cases op with
    | use now =>
      have hops' : noUnsafeLowering (step rl (Op.use now)) ops = true := hops
      refine ih _ ?_ hops'
      rw [step, use]
      split
      · dsimp only; omega
      · exact hinv
    | tick =>
      have hops' : noUnsafeLowering (step rl Op.tick) ops = true := hops
      refine ih _ ?_ hops'
      rw [step, tick]
      split
      case isTrue hlt => dsimp only; omega
      case isFalse => exact hinv
    | setBurst m =>
      have hops' : (decide (m < 1 ∨ rl.burst ≤ m.toNat) &&
          noUnsafeLowering (step rl (Op.setBurst m)) ops) = true := hops
      rw [Bool.and_eq_true, decide_eq_true_eq] at hops'
      obtain ⟨hop, hops'⟩ := hops'
      refine ih _ ?_ hops'
      rw [step, setBurst]
      split
      case isTrue => exact hinv
      case isFalse hge =>
        dsimp only
        rcases hop with hlt | hle
        · exact absurd hlt hge
        · exact hle
    | setInterval d now =>
      have hops' : noUnsafeLowering (step rl (Op.setInterval d now)) ops = true := hops
      refine ih _ ?_ hops'
      rw [step, setInterval]
      split <;> exact hinv
    | resetBurst =>
      have hops' : noUnsafeLowering (step rl Op.resetBurst) ops = true := hops
      exact ih _ (Nat.le_refl _) hops'

/-- C1 (amended: the invariant holds for every reachable state obtained
without an accepted `SetBurst` call lowering `maxBurst` below the
then-current `burst`; the lower bound `0 ≤ burst` needs no side
condition, since `Use` only decrements under the guard `burst > 0`):
starting from any successfully constructed limiter and running any
sequence of `Use`, refill-tick, `SetBurst`, `SetInterval` and
`ResetBurst` steps satisfying that restriction, `burst ≤ maxBurst`
holds at every observable point. -/
theorem reachable_invariant (opts : RateLimiterOptions) (t0 : Int)
    (rl : RateLimiter)
    (hnew : newRateLimiterWithBurst opts t0 = .ok rl)
    (ops : List Op) (hops : noUnsafeLowering rl ops = true) :
    (run rl ops).burst ≤ (run rl ops).maxBurst := by
  refine run_le_invariant ops rl ?_ hops
  unfold newRateLimiterWithBurst at hnew
  split at hnew
  · simp at hnew
  split at hnew
  · simp at hnew
  injection hnew with hnew
  subst hnew
  exact Nat.le_refl _

/-- Witness for C1's amended theorem: construct with two permits, then
grant a `Use`, lower the ceiling to the current count, tick, and reset. -/
theorem reachable_invariant_witness :
    (run ⟨2, 2, 0, 0, 1, 1⟩
        [Op.use 1, Op.setBurst 1, Op.tick, Op.resetBurst]).burst ≤
      (run ⟨2, 2, 0, 0, 1, 1⟩
        [Op.use 1, Op.setBurst 1, Op.tick, Op.resetBurst]).maxBurst :=
  reachable_invariant ⟨2, 0, 1⟩ 0 ⟨2, 2, 0, 0, 1, 1⟩ rfl
    [Op.use 1, Op.setBurst 1, Op.tick, Op.resetBurst] (by decide)

/-- Helper: from a state with no spacing (`burstInterval = 0`) and
`expiry` before the first call time, consecutive `Use` calls at
strictly increasing times drain the pool one permit at a time. -/
theorem useRun_zero_spacing (rl0 : RateLimiter) (ts : Nat → Int)
    (hmono : StrictMono ts) (hbi : rl0.burstInterval = 0)
    (he : rl0.expiry < ts 0) :
    ∀ k, k ≤ rl0.burst →
      (useRun rl0 ts k).burst = rl0.burst - k ∧
      (useRun rl0 ts k).burstInterval = 0 ∧
      (useRun rl0 ts k).expiry < ts k := by
  intro k
  induction k with
  | zero => intro _; exact ⟨rfl, hbi, he⟩
  | succ k ih =>
    intro hk
    obtain ⟨ihb, ihbi, ihe⟩ := ih (Nat.le_of_succ_le hk)
    rw [useRun, use, if_pos ⟨by omega, ihe⟩]
    refine ⟨?_, ?_, ?_⟩
    · dsimp only; omega
    · dsimp only; exact ihbi
    · dsimp only
      rw [ihbi]
      have h2 : ts k < ts (k + 1) := hmono (Nat.lt_succ_self k)
      omega

/-- C3 (with the call times made explicit: the `i`-th call happens at
time `ts i`, strictly increasing and after construction, and the
many-permit limiter is built with no minimum spacing): a limiter
freshly constructed with `BurstAmount = N ≥ 1`, with no refill tick
having occurred, grants exactly the first `N` consecutive `Use` calls
and denies the `(N+1)`-th; and via the single-argument constructor
(capacity 1), the first call is granted and the second denied. -/
theorem fresh_capacity (N : Nat) (iv t0 : Int) (hN : 1 ≤ N)
    (hiv : 1 ≤ iv) (ts : Nat → Int) (hmono : StrictMono ts)
    (h0 : t0 < ts 0) (rl rl1 : RateLimiter)
    (hnew : newRateLimiterWithBurst ⟨(N : Int), 0, iv⟩ t0 = .ok rl)
    (hnew1 : newRateLimiter iv t0 = .ok rl1) :
    ((List.range N).all (fun i => useResultAt rl ts i)) = true ∧
    useResultAt rl ts N = false ∧
    useResultAt rl1 ts 0 = true ∧
    useResultAt rl1 ts 1 = false := by
  unfold newRateLimiterWithBurst at hnew
  rw [if_neg (show ¬((⟨(N : Int), 0, iv⟩ : RateLimiterOptions).burstAmount < 1) by
        dsimp only; omega),
    if_neg (show ¬((⟨(N : Int), 0, iv⟩ : RateLimiterOptions).interval < 1) by
        dsimp only; omega)] at hnew
  injection hnew with hnew
  subst hnew
  unfold newRateLimiter newRateLimiterWithBurst at hnew1
  rw [if_neg (show ¬((⟨1, iv, iv⟩ : RateLimiterOptions).burstAmount < 1) by
        dsimp only; decide),
    if_neg (show ¬((⟨1, iv, iv⟩ : RateLimiterOptions).interval < 1) by
        dsimp only; omega)] at hnew1
  injection hnew1 with hnew1
  subst hnew1
  dsimp only
  have key := useRun_zero_spacing
    ⟨((N : Int)).toNat, ((N : Int)).toNat, 0, t0, iv, t0 + iv⟩ ts hmono rfl h0
  refine ⟨?_, ?_, ?_, ?_⟩
  · rw [List.all_eq_true]
    intro i hi
    rw [List.mem_range] at hi
    obtain ⟨kb, kbi, ke⟩ := key i (by dsimp only; omega)
    show useResultAt _ ts i = true
    rw [useResultAt, use_fst_iff]
    refine ⟨?_, ke⟩
    dsimp only at kb
    omega
  · obtain ⟨kb, kbi, ke⟩ := key N (by dsimp only; omega)
    rw [useResultAt, ← Bool.not_eq_true, use_fst_iff]
    rintro ⟨hpos, -⟩
    dsimp only at kb
    omega
  · rw [useResultAt, use_fst_iff]
    refine ⟨?_, h0⟩
    show (0 : Nat) < (1 : Int).toNat
    decide
  · have huse1 : use (⟨(1 : Int).toNat, (1 : Int).toNat, iv, t0, iv, t0 + iv⟩ :
        RateLimiter) (ts 0)
        = (true, ⟨0, (1 : Int).toNat, iv, ts 0 + iv, iv, ts 0 + iv⟩) := by
      rw [use, if_pos ⟨show (0 : Nat) < (1 : Int).toNat by decide, h0⟩]
      rfl
    have h1 : useRun (⟨(1 : Int).toNat, (1 : Int).toNat, iv, t0, iv, t0 + iv⟩ :
        RateLimiter) ts 1
        = ⟨0, (1 : Int).toNat, iv, ts 0 + iv, iv, ts 0 + iv⟩ := by
      show (use (⟨(1 : Int).toNat, (1 : Int).toNat, iv, t0, iv, t0 + iv⟩ :
        RateLimiter) (ts 0)).2 = _
      rw [huse1]
    rw [useResultAt, ← Bool.not_eq_true, use_fst_iff, h1]
    rintro ⟨hpos, -⟩
    dsimp only at hpos
    omega

/-- Witness for C3: capacity `N = 2`, interval 1, construction at time
`-1`, the `i`-th call at time `i`. -/
theorem fresh_capacity_witness :
    ((List.range 2).all
      (fun i => useResultAt ⟨2, 2, 0, -1, 1, 0⟩ (fun n => (n : Int)) i)) = true ∧
    useResultAt ⟨2, 2, 0, -1, 1, 0⟩ (fun n => (n : Int)) 2 = false ∧
    useResultAt ⟨1, 1, 1, -1, 1, 0⟩ (fun n => (n : Int)) 0 = true ∧
    useResultAt ⟨1, 1, 1, -1, 1, 0⟩ (fun n => (n : Int)) 1 = false :=
  fresh_capacity 2 1 (-1) (by decide) (by decide) (fun n => (n : Int))
    (fun a b h => by simpa using h) (by decide) ⟨2, 2, 0, -1, 1, 0⟩
    ⟨1, 1, 1, -1, 1, 0⟩ rfl rfl

end RL
